import Mathlib

/-!
Verification of the multi-agent coding-assistant pipeline core.

This file gives a shallow embedding, in Lean 4, of the control-plane code of
the repository:

* `agents/graph.py` — the shared `AgentState`, the routing function
  `route_after_review`, and the stage graph wired by `build_graph`;
* `agents/orchestrator.py`, `agents/code_writer.py`, `agents/code_reviewer.py`,
  `agents/test_writer.py` — the four stages, embedded as pure state-update
  functions; the opaque LLM inference calls are abstracted as environment
  inputs (their response texts), exactly as the design document treats them;
* `agents/mcp_client.py` — the synchronous tool bridge `call_mcp_tool`,
  modelled over an explicit worker whose completion time and outcome are
  parameters (discrete wall-clock time in seconds);
* `mcp_server/server.py` — the tool server dispatcher `call_tool`, with the
  file-system / subprocess effects of each branch abstracted into the action
  that branch performs;
* `api/main.py` — the HTTP `run_pipeline` endpoint.

Python dictionaries with optional keys are embedded as structures of `Option`
fields; `dict.get(k, d)` becomes `Option.getD`; Python's unbounded `int`
becomes `Int`; a Python function that can raise becomes a function into
`Except`.
-/

/-! ## Data model (agents/graph.py `AgentState` and the review JSON dict) -/

/-- One issue entry of the reviewer's structured JSON
(`{"type": ..., "description": ..., "severity": ...}`); every key may be
absent, hence `Option` fields. -/
structure Issue where
  type : Option String
  description : Option String
  severity : Option String
deriving DecidableEq, Repr

/-- The reviewer's structured JSON dict
(`{"issues": [...], "severity": ..., "summary": ...}`); every key may be
absent. The empty Python dict `{}` is `⟨none, none, none⟩`. -/
structure ReviewJson where
  issues : Option (List Issue)
  severity : Option String
  summary : Option String
deriving DecidableEq, Repr

/-- One activity-log entry `{"role": ..., "content": ...}`. -/
structure LogEntry where
  role : String
  content : String
deriving DecidableEq, Repr

/-- Embedding of `AgentState` from agents/graph.py: the shared state record threaded
through every stage.  `messages` is the `Annotated[list, operator.add]`
activity log. -/
structure AgentState where
  task : String
  code : String
  review : String
  review_json : ReviewJson
  tests : String
  test_results : String
  iterations : Int
  messages : List LogEntry
deriving DecidableEq, Repr

/-- A partial state update returned by one stage: absent keys leave the state
field unchanged; the `messages` key is merged by list concatenation
(`operator.add`), so it is a plain list here. -/
structure Update where
  task : Option String := none
  code : Option String := none
  review : Option String := none
  review_json : Option ReviewJson := none
  tests : Option String := none
  test_results : Option String := none
  iterations : Option Int := none
  messages : List LogEntry := []
deriving DecidableEq, Repr

/-- The engine's merge of a stage's partial update into the state: every
field present in the update overwrites the old value, except `messages`,
which is appended (`operator.add` on the `Annotated` field). -/
def merge (s : AgentState) (u : Update) : AgentState :=
  { task := u.task.getD s.task
    code := u.code.getD s.code
    review := u.review.getD s.review
    review_json := u.review_json.getD s.review_json
    tests := u.tests.getD s.tests
    test_results := u.test_results.getD s.test_results
    iterations := u.iterations.getD s.iterations
    messages := s.messages ++ u.messages }

/-! ## Routing function (agents/graph.py, `route_after_review`) -/

/-- Embedding of `route_after_review` from agents/graph.py:
`severity = state.get("review_json", {}).get("severity", "none")`,
`iterations = state.get("iterations", 0)`; returns `"revise"` when
`severity == "critical" and iterations < 3`, else `"approve"`. -/
def route_after_review (s : AgentState) : String :=
  let severity := s.review_json.severity.getD "none"
  let iterations := s.iterations
  if severity = "critical" ∧ iterations < 3 then "revise" else "approve"

/-- C1: the routing function returns `"revise"` exactly when the review's
severity tag (with a missing tag read as `"none"`) equals `"critical"` and
the iteration count is strictly below 3; in every other case — including any
severity string outside `{none, minor, critical}` — it returns `"approve"`,
and those are its only two outputs. -/
theorem route_after_review_correct (s : AgentState) :
    (route_after_review s = "revise" ↔
      s.review_json.severity.getD "none" = "critical" ∧ s.iterations < 3)
    ∧ (route_after_review s = "revise" ∨ route_after_review s = "approve") := by
  unfold route_after_review
  constructor
  · constructor
    · intro h
      by_contra hc
      rw [if_neg hc] at h
      exact absurd h (by decide)
    · intro h
      rw [if_pos h]
  · by_cases h : s.review_json.severity.getD "none" = "critical" ∧ s.iterations < 3
    · left; rw [if_pos h]
    · right; rw [if_neg h]

/-- Python's `str.strip()`: remove leading and trailing whitespace.
(Defined character-listwise so that it evaluates by kernel reduction;
Lean's own `String.trim` is semantically the same but not reducible.) -/
def pyStrip (s : String) : String :=
  String.mk ((((s.toList.dropWhile Char.isWhitespace).reverse.dropWhile
    Char.isWhitespace)).reverse)

/-! ## Review parsing and formatting (agents/code_reviewer.py) -/

/-- Embedding of `_parse_review_json` from agents/code_reviewer.py.  The regex search for
a `{...}` block and `json.loads` are abstracted into the `parsed` argument:
`some d` when a block was found and decoded to the dict `d`, `none` when
there was no match or decoding raised.  On `none` the fallback dict is built
from the raw text (`text[:300]` when non-empty). -/
def _parse_review_json (parsed : Option ReviewJson) (text : String) : ReviewJson :=
  match parsed with
  | some d => d
  | none =>
    { issues := some []
      severity := some "none"
      summary := some (if text ≠ "" then text.take 300 else "Review could not be parsed") }

/-- Embedding of `_format_review` from agents/code_reviewer.py. -/
def _format_review (review_json : ReviewJson) : String :=
  let issues := review_json.issues.getD []
  let severity := (review_json.severity.getD "none").toUpper
  let summary := review_json.summary.getD ""
  if issues.isEmpty then
    "No issues found. " ++ summary
  else
    let lines :=
      ["Severity: " ++ severity ++ "\n"]
        ++ issues.enum.map (fun p =>
            toString (p.1 + 1) ++ ". [" ++ (p.2.severity.getD "minor").toUpper ++ "] ("
              ++ p.2.type.getD "general" ++ ") " ++ p.2.description.getD "")
        ++ ["\nSummary: " ++ summary]
    String.intercalate "\n" lines

/-! ## The four stages

Each stage is embedded as the partial-update function it returns; the opaque
LLM call inside it is abstracted as an argument carrying the model's response
text (the stage's prompt construction feeds only that call, so it has no
state effect), and tool-bridge calls whose string result the stage ignores
have no state effect either. -/

/-- Embedding of `orchestrator_agent` from agents/orchestrator.py: replaces `task` with
the stripped response text and appends its single log entry (the returned
dict is `{**state, "task": ..., "messages": [entry]}`, so every other field
is written back unchanged). -/
def orchestrator_agent (responseText : String) (s : AgentState) : Update :=
  { task := some (pyStrip responseText)
    code := some s.code
    review := some s.review
    review_json := some s.review_json
    tests := some s.tests
    test_results := some s.test_results
    iterations := some s.iterations
    messages := [⟨"orchestrator", "Task analysed and structured into a specification"⟩] }

/-- Embedding of `code_writer_agent` from agents/code_writer.py: strips markdown fences
from the response (three successive `if`s, not `elif`), writes the file via
the tool bridge (string result ignored), and returns only `code`,
`iterations + 1` and its single log entry.  `ragContext` is the
`call_mcp_tool("query_docs", ...)` result, used only in the prompt. -/
def code_writer_agent (_ragContext responseText : String) (s : AgentState) : Update :=
  let iterations := s.iterations
  let code0 := pyStrip responseText
  let code1 := if code0.startsWith "```python" then code0.drop 9 else code0
  let code2 := if code1.startsWith "```" then code1.drop 3 else code1
  let code3 := if code2.endsWith "```" then code2.dropRight 3 else code2
  let code := pyStrip code3
  let action := if iterations > 0 then "revised" else "written"
  { code := some code
    iterations := some (iterations + 1)
    messages := [⟨"code_writer",
      "Code " ++ action ++ " (iteration " ++ toString (iterations + 1)
        ++ "). RAG context retrieved successfully."⟩] }

/-- Embedding of `code_reviewer_agent` from agents/code_reviewer.py: parses the stripped
response into `review_json`, formats `review`, and returns
`{**state, "review": ..., "review_json": ..., "messages": [entry]}` — the
literal `"messages"` key overrides the spread, so exactly one entry is
appended by the engine's merge. -/
def code_reviewer_agent (parsed : Option ReviewJson) (responseText : String)
    (s : AgentState) : Update :=
  let review_json := _parse_review_json parsed (pyStrip responseText)
  let review_text := _format_review review_json
  let severity := review_json.severity.getD "none"
  { task := some s.task
    code := some s.code
    review := some review_text
    review_json := some review_json
    tests := some s.tests
    test_results := some s.test_results
    iterations := some s.iterations
    messages := [⟨"code_reviewer",
      "Review done — severity: " ++ severity.toUpper ++ ", issues: "
        ++ toString (review_json.issues.getD []).length⟩] }

/-- Embedding of `_strip_code_fences` from agents/test_writer.py (here the second check is
an `elif`, unlike the writer's inline version). -/
def _strip_code_fences (text : String) : String :=
  let t0 := pyStrip text
  let t1 := if t0.startsWith "```python" then t0.drop 9
            else if t0.startsWith "```" then t0.drop 3 else t0
  let t2 := if t1.endsWith "```" then t1.dropRight 3 else t1
  pyStrip t2

/-- Does `needle` occur as a substring of `haystack`?  Embeds Python's
`needle in haystack`. -/
def strContainsSub (haystack needle : String) : Bool :=
  haystack.toList.tails.any (fun t => needle.toList.isPrefixOf t)

/-- Embedding of `test_writer_agent` from agents/test_writer.py: strips fences from the
response, saves the combined file via the tool bridge (string result
ignored), runs the combined code through `call_mcp_tool("execute_code", ...)`
— abstracted as `execOutputOf combined` — and classifies the output by
substring checks.  `call_mcp_tool` never raises, so the `except` branch that
would set `test_results` to `"Could not execute tests: ..."` is unreachable,
as is the initial `"Tests were not executed"` value. -/
def test_writer_agent (responseText : String) (execOutputOf : String → String)
    (s : AgentState) : Update :=
  let tests := _strip_code_fences responseText
  let combined := "import pytest\n\n" ++ s.code ++ "\n\n# ── Tests ──\n\n" ++ tests
  let exec_output := execOutputOf combined
  let test_results :=
    if strContainsSub exec_output.toLower "exit code: 0" then
      "TESTS PASSED\n\n" ++ exec_output
    else if strContainsSub exec_output.toLower "error"
        || strContainsSub exec_output.toLower "failed" then
      "TESTS FAILED\n\n" ++ exec_output
    else exec_output
  { task := some s.task
    code := some s.code
    review := some s.review
    review_json := some s.review_json
    tests := some tests
    test_results := some test_results
    iterations := some s.iterations
    messages := [⟨"test_writer", "Tests generated and executed in Docker sandbox"⟩] }

/-! ## The stage graph and engine (agents/graph.py `build_graph`)

The engine loop itself lives in the langgraph library, not in this
repository; its semantics for this static graph — invoke the current stage,
merge its update, follow the single static edge, or evaluate
`route_after_review` on the post-update state for the one conditional edge,
stop at END — is taken from the design document and from the wiring in
`build_graph` (entry point `orchestrator`; edges orchestrator → code_writer,
code_writer → code_reviewer, conditional code_reviewer → {revise ↦
code_writer, approve ↦ test_writer}, test_writer → END). -/

/-- The four graph nodes registered by `build_graph`. -/
inductive Node where
  | orchestrator
  | code_writer
  | code_reviewer
  | test_writer
deriving DecidableEq, Repr

/-- The stage name each node registers, which is also the `role` each stage
writes into its log entry. -/
def nodeName : Node → String
  | .orchestrator => "orchestrator"
  | .code_writer => "code_writer"
  | .code_reviewer => "code_reviewer"
  | .test_writer => "test_writer"

/-- The outgoing edge of each node, from `build_graph`: `none` is END. -/
def nextNode (n : Node) (s : AgentState) : Option Node :=
  match n with
  | .orchestrator => some .code_writer
  | .code_writer => some .code_reviewer
  | .code_reviewer =>
    some (if route_after_review s = "revise" then .code_writer else .test_writer)
  | .test_writer => none

/-- The run's environment: the opaque inference responses and tool results
each stage consumes, indexed where a stage can run more than once by the
`iterations` value it observes on entry. -/
structure Env where
  orchestratorText : String
  ragContext : Int → String
  writerText : Int → String
  reviewerParsed : Int → Option ReviewJson
  reviewerText : Int → String
  testerText : String
  testerExec : String → String

/-- Invoke one stage on the current state and merge its update. -/
def applyStage (env : Env) (n : Node) (s : AgentState) : AgentState :=
  match n with
  | .orchestrator => merge s (orchestrator_agent env.orchestratorText s)
  | .code_writer =>
    merge s (code_writer_agent (env.ragContext s.iterations) (env.writerText s.iterations) s)
  | .code_reviewer =>
    merge s (code_reviewer_agent (env.reviewerParsed s.iterations) (env.reviewerText s.iterations) s)
  | .test_writer => merge s (test_writer_agent env.testerText env.testerExec s)

/-- One trace record per stage invocation: the node, the state it was
invoked on, and the state after its update was merged. -/
structure TraceEntry where
  node : Node
  pre : AgentState
  post : AgentState
deriving DecidableEq, Repr

/-- The engine loop, fuel-bounded: returns the invocation trace and the
final state (`none` only when the fuel runs out before END). -/
def runAux (env : Env) : Nat → Node → AgentState → List TraceEntry × Option AgentState
  | 0, _, _ => ([], none)
  | f + 1, n, s =>
    let s2 := applyStage env n s
    (nextNode n s2).elim ([⟨n, s, s2⟩], some s2)
      (fun n2 => (⟨n, s, s2⟩ :: (runAux env f n2 s2).1, (runAux env f n2 s2).2))

/-- The initial state of `run_pipeline` in agents/graph.py
(`{"task": task, "iterations": 0, "messages": []}`; the remaining keys are
read through `.get` with these defaults, and api/main.py passes the same
values explicitly). -/
def initState (task : String) : AgentState :=
  { task := task, code := "", review := "", review_json := ⟨none, none, none⟩
    tests := "", test_results := "", iterations := 0, messages := [] }

/-- A full pipeline run from the entry point.  Fuel 10 exceeds the longest
possible path (8 invocations). -/
def pipelineRun (env : Env) (task : String) : List TraceEntry × Option AgentState :=
  runAux env 10 .orchestrator (initState task)

/-- The `review_json` dict computed by the reviewer stage on its pass with
iteration count `k`. -/
def reviewerVerdict (env : Env) (k : Int) : ReviewJson :=
  _parse_review_json (env.reviewerParsed k) (pyStrip (env.reviewerText k))

/-! ## Engine lemmas -/

/-- Unfolding the engine one step when the current node has an outgoing edge. -/
theorem runAux_succ_cont (env : Env) (f : Nat) (n : Node) (s : AgentState) (n2 : Node)
    (h : nextNode n (applyStage env n s) = some n2) :
    runAux env (f + 1) n s
      = (⟨n, s, applyStage env n s⟩ :: (runAux env f n2 (applyStage env n s)).1,
         (runAux env f n2 (applyStage env n s)).2) := by
  rw [runAux, h]
  rfl

/-- Unfolding the engine one step when the current node is terminal. -/
theorem runAux_succ_stop (env : Env) (f : Nat) (n : Node) (s : AgentState)
    (h : nextNode n (applyStage env n s) = none) :
    runAux env (f + 1) n s = ([⟨n, s, applyStage env n s⟩], some (applyStage env n s)) := by
  rw [runAux, h]
  rfl

/-- Only the writer stage changes `iterations`, and it adds exactly 1. -/
theorem applyStage_iterations (env : Env) (n : Node) (s : AgentState) :
    (applyStage env n s).iterations
      = if n = .code_writer then s.iterations + 1 else s.iterations := by
  cases n <;>
    simp only [applyStage, merge, orchestrator_agent, code_writer_agent,
      code_reviewer_agent, test_writer_agent, Option.getD_some, reduceCtorEq,
      if_true, if_false, reduceIte]

/-- Every stage appends exactly one log entry, whose role is the stage name. -/
theorem applyStage_messages (env : Env) (n : Node) (s : AgentState) :
    ∃ e : LogEntry, (applyStage env n s).messages = s.messages ++ [e]
      ∧ e.role = nodeName n := by
  cases n <;> exact ⟨_, rfl, rfl⟩

/-- The reviewer stage stores the parsed verdict into `review_json` and keeps
`iterations`; hence after a review pass the routing function reduces to the
iteration test whenever the verdict's severity is `"critical"`. -/
theorem route_applyStage_reviewer (env : Env) (s : AgentState)
    (h : (reviewerVerdict env s.iterations).severity.getD "none" = "critical") :
    route_after_review (applyStage env .code_reviewer s)
      = if s.iterations < 3 then "revise" else "approve" := by
  have hrj : (applyStage env .code_reviewer s).review_json
      = reviewerVerdict env s.iterations := rfl
  have hit : (applyStage env .code_reviewer s).iterations = s.iterations := rfl
  unfold route_after_review
  rw [hrj, hit, h]
  by_cases h3 : s.iterations < 3
  · rw [if_pos ⟨rfl, h3⟩, if_pos h3]
  · rw [if_neg (fun hc => h3 hc.2), if_neg h3]

/-! ## The all-critical run (Scenario B) -/

/-- One writer→reviewer round that loops back: from the writer with entry
iteration count `k`, when the reviewer's verdict is critical and
`k + 1 < 3`, the engine emits the two invocations and returns to the
writer. -/
theorem runAux_writer_round_revise (env : Env) (f : Nat) (s : AgentState) (k : Int)
    (hk : s.iterations = k)
    (hcrit : (reviewerVerdict env (k + 1)).severity.getD "none" = "critical")
    (hlt : k + 1 < 3) :
    runAux env (f + 2) .code_writer s
      = (⟨.code_writer, s, applyStage env .code_writer s⟩
          :: ⟨.code_reviewer, applyStage env .code_writer s,
              applyStage env .code_reviewer (applyStage env .code_writer s)⟩
          :: (runAux env f .code_writer
              (applyStage env .code_reviewer (applyStage env .code_writer s))).1,
         (runAux env f .code_writer
            (applyStage env .code_reviewer (applyStage env .code_writer s))).2) := by
  have hitW : (applyStage env .code_writer s).iterations = k + 1 := by
    rw [applyStage_iterations, if_pos rfl, hk]
  have hroute : route_after_review
      (applyStage env .code_reviewer (applyStage env .code_writer s)) = "revise" := by
    rw [route_applyStage_reviewer env _ (by rw [hitW]; exact hcrit), hitW, if_pos hlt]
  have hnn : nextNode .code_reviewer
      (applyStage env .code_reviewer (applyStage env .code_writer s)) = some .code_writer := by
    show some _ = some _
    rw [hroute]
    rfl
  rw [show f + 2 = (f + 1) + 1 from rfl,
      runAux_succ_cont env (f + 1) .code_writer s .code_reviewer rfl,
      runAux_succ_cont env f .code_reviewer _ .code_writer hnn]

/-- The final writer→reviewer→tester segment: from the writer with entry
iteration count `k`, when the reviewer's verdict is critical but
`¬ k + 1 < 3`, the review is force-approved and the tester terminates the
run. -/
theorem runAux_writer_round_approve (env : Env) (f : Nat) (s : AgentState) (k : Int)
    (hk : s.iterations = k)
    (hcrit : (reviewerVerdict env (k + 1)).severity.getD "none" = "critical")
    (hge : ¬ k + 1 < 3) :
    runAux env (f + 3) .code_writer s
      = (⟨.code_writer, s, applyStage env .code_writer s⟩
          :: ⟨.code_reviewer, applyStage env .code_writer s,
              applyStage env .code_reviewer (applyStage env .code_writer s)⟩
          :: [⟨.test_writer,
                applyStage env .code_reviewer (applyStage env .code_writer s),
                applyStage env .test_writer
                  (applyStage env .code_reviewer (applyStage env .code_writer s))⟩],
         some (applyStage env .test_writer
            (applyStage env .code_reviewer (applyStage env .code_writer s)))) := by
  have hitW : (applyStage env .code_writer s).iterations = k + 1 := by
    rw [applyStage_iterations, if_pos rfl, hk]
  have hroute : route_after_review
      (applyStage env .code_reviewer (applyStage env .code_writer s)) = "approve" := by
    rw [route_applyStage_reviewer env _ (by rw [hitW]; exact hcrit), hitW, if_neg hge]
  have hnn : nextNode .code_reviewer
      (applyStage env .code_reviewer (applyStage env .code_writer s)) = some .test_writer := by
    show some _ = some _
    rw [hroute]
    rfl
  rw [show f + 3 = ((f + 1) + 1) + 1 from rfl,
      runAux_succ_cont env ((f + 1) + 1) .code_writer s .code_reviewer rfl,
      runAux_succ_cont env (f + 1) .code_reviewer _ .test_writer hnn,
      runAux_succ_stop env f .test_writer _ rfl]

/-- A reviewer pass after a writer pass leaves `iterations` one above the
writer's entry value. -/
theorem iter_reviewer_writer (env : Env) (s : AgentState) :
    (applyStage env .code_reviewer (applyStage env .code_writer s)).iterations
      = s.iterations + 1 := by
  rw [applyStage_iterations, applyStage_iterations]
  simp

/-- C2 (amended): in every run in which the reviewer's verdict has overall
severity `"critical"` at every review opportunity, the engine performs
exactly the eight invocations orchestrator, writer, reviewer, writer,
reviewer, writer, reviewer, tester — so the writer runs exactly 3 times (not
4), the reviewer 3 times, the tester exactly once via the forced approve at
iteration count 3 — and the run terminates. -/
theorem pipeline_all_critical_run (env : Env) (task : String)
    (hcrit : ∀ k : Int, (reviewerVerdict env k).severity.getD "none" = "critical") :
    ((pipelineRun env task).1.map TraceEntry.node)
      = [.orchestrator, .code_writer, .code_reviewer, .code_writer, .code_reviewer,
         .code_writer, .code_reviewer, .test_writer]
    ∧ ((pipelineRun env task).1.map TraceEntry.node).count Node.code_writer = 3
    ∧ ((pipelineRun env task).1.map TraceEntry.node).count Node.test_writer = 1
    ∧ (pipelineRun env task).2.isSome := by
  have hmain : ((pipelineRun env task).1.map TraceEntry.node)
      = [.orchestrator, .code_writer, .code_reviewer, .code_writer, .code_reviewer,
         .code_writer, .code_reviewer, .test_writer]
      ∧ (pipelineRun env task).2.isSome := by
    unfold pipelineRun
    rw [show (10 : Nat) = 9 + 1 from rfl,
        runAux_succ_cont env 9 .orchestrator (initState task) .code_writer rfl]
    set s1 := applyStage env .orchestrator (initState task) with hs1
    have h1 : s1.iterations = 0 := rfl
    rw [show (9 : Nat) = 7 + 2 from rfl,
        runAux_writer_round_revise env 7 s1 0 h1 (hcrit (0 + 1)) (by norm_num)]
    set s2 := applyStage env .code_reviewer (applyStage env .code_writer s1) with hs2
    have h2 : s2.iterations = 1 := by rw [hs2, iter_reviewer_writer, h1]; norm_num
    rw [show (7 : Nat) = 5 + 2 from rfl,
        runAux_writer_round_revise env 5 s2 1 h2 (hcrit (1 + 1)) (by norm_num)]
    set s3 := applyStage env .code_reviewer (applyStage env .code_writer s2) with hs3
    have h3 : s3.iterations = 2 := by rw [hs3, iter_reviewer_writer, h2]; norm_num
    rw [show (5 : Nat) = 2 + 3 from rfl,
        runAux_writer_round_approve env 2 s3 2 h3 (hcrit (2 + 1)) (by norm_num)]
    simp
  refine ⟨hmain.1, ?_, ?_, hmain.2⟩
  · rw [hmain.1]; decide
  · rw [hmain.1]; decide

/-- A concrete environment whose reviewer verdict is
`{"issues": [], "severity": "critical", "summary": "ok"}` on every pass and
whose other stage responses are fixed short strings. -/
def cEnv : Env :=
  { orchestratorText := "spec"
    ragContext := fun _ => "ctx"
    writerText := fun _ => "code"
    reviewerParsed := fun _ => some ⟨some [], some "critical", some "ok"⟩
    reviewerText := fun _ => "raw"
    testerText := "tests"
    testerExec := fun _ => "Exit code: 0" }

/-- C2 counterexample: on a concrete run whose reviewer verdict is critical
at every review opportunity, the writer stage is invoked 3 times — not 4 as
the claim states. -/
theorem pipeline_all_critical_writer_count_cx :
    (∀ k : Int, (reviewerVerdict cEnv k).severity.getD "none" = "critical")
    ∧ ((pipelineRun cEnv "task").1.map TraceEntry.node).count Node.code_writer = 3
    ∧ ¬ ((pipelineRun cEnv "task").1.map TraceEntry.node).count Node.code_writer = 4 := by
  refine ⟨fun k => rfl, by decide, by decide⟩

/-- Witness for `pipeline_all_critical_run` at the concrete environment
`cEnv` and task `"task"`. -/
theorem pipeline_all_critical_run_witness :
    ((pipelineRun cEnv "task").1.map TraceEntry.node).count Node.code_writer = 3
    ∧ ((pipelineRun cEnv "task").1.map TraceEntry.node).count Node.test_writer = 1
    ∧ (pipelineRun cEnv "task").2.isSome :=
  ⟨(pipeline_all_critical_run cEnv "task" (fun _ => rfl)).2.1,
   (pipeline_all_critical_run cEnv "task" (fun _ => rfl)).2.2.1,
   (pipeline_all_critical_run cEnv "task" (fun _ => rfl)).2.2.2⟩

/-! ## Trace lemmas: honesty, log growth, chaining, iteration bounds -/

/-- Every trace entry records the invoked stage faithfully: its post-state is
the merge of that stage's update into its pre-state. -/
theorem runAux_entry_honest (env : Env) :
    ∀ (f : Nat) (n : Node) (s : AgentState), ∀ e ∈ (runAux env f n s).1,
      e.post = applyStage env e.node e.pre := by
  intro f
  induction f with
  | zero => intro n s e he; simp [runAux] at he
  | succ f ih =>
    intro n s e he
    cases hnn : nextNode n (applyStage env n s) with
    | none =>
      rw [runAux_succ_stop env f n s hnn] at he
      simp at he
      subst he; rfl
    | some n2 =>
      rw [runAux_succ_cont env f n s n2 hnn] at he
      simp at he
      rcases he with he | he
      · subst he; rfl
      · exact ih n2 (applyStage env n s) e he

/-- The activity log grows by exactly one entry per invocation: the `i`-th
entry of the trace has a post-state log of length `initial + i + 1`. -/
theorem runAux_msgs_len (env : Env) :
    ∀ (f : Nat) (n : Node) (s : AgentState) (i : Nat) (e : TraceEntry),
      (runAux env f n s).1[i]? = some e →
      e.post.messages.length = s.messages.length + i + 1 := by
  intro f
  induction f with
  | zero => intro n s i e he; simp [runAux] at he
  | succ f ih =>
    intro n s i e he
    obtain ⟨entry, hmsg, -⟩ := applyStage_messages env n s
    cases hnn : nextNode n (applyStage env n s) with
    | none =>
      rw [runAux_succ_stop env f n s hnn] at he
      cases i with
      | zero =>
        simp at he
        subst he
        simp [hmsg]
      | succ i => simp at he
    | some n2 =>
      rw [runAux_succ_cont env f n s n2 hnn] at he
      cases i with
      | zero =>
        simp at he
        subst he
        simp [hmsg]
      | succ i =>
        simp only [List.getElem?_cons_succ] at he
        have := ih n2 (applyStage env n s) i e he
        rw [this, hmsg]
        simp
        omega

/-- The first trace entry's pre-state is the state the run started from. -/
theorem runAux_head_pre (env : Env) :
    ∀ (f : Nat) (n : Node) (s : AgentState) (e : TraceEntry),
      (runAux env f n s).1[0]? = some e → e.pre = s := by
  intro f n s e he
  cases f with
  | zero => simp [runAux] at he
  | succ f =>
    cases hnn : nextNode n (applyStage env n s) with
    | none =>
      rw [runAux_succ_stop env f n s hnn] at he
      simp at he
      subst he; rfl
    | some n2 =>
      rw [runAux_succ_cont env f n s n2 hnn] at he
      simp at he
      subst he; rfl

/-- Consecutive trace entries chain: the next invocation's pre-state is the
previous invocation's post-state (strict sequential execution, no stale
snapshot). -/
theorem runAux_chain (env : Env) :
    ∀ (f : Nat) (n : Node) (s : AgentState) (i : Nat) (e e2 : TraceEntry),
      (runAux env f n s).1[i]? = some e →
      (runAux env f n s).1[i + 1]? = some e2 →
      e2.pre = e.post := by
  intro f
  induction f with
  | zero => intro n s i e e2 he _; simp [runAux] at he
  | succ f ih =>
    intro n s i e e2 he he2
    cases hnn : nextNode n (applyStage env n s) with
    | none =>
      rw [runAux_succ_stop env f n s hnn] at he he2
      cases i with
      | zero => simp at he2
      | succ i => simp at he
    | some n2 =>
      rw [runAux_succ_cont env f n s n2 hnn] at he he2
      cases i with
      | zero =>
        simp at he he2
        subst he
        exact runAux_head_pre env f n2 (applyStage env n s) e2 he2
      | succ i =>
        simp only [List.getElem?_cons_succ] at he he2
        exact ih n2 (applyStage env n s) i e e2 he he2

/-- The largest `iterations` value with which each node can be entered:
the writer is entered initially at 0 or via a revise at ≤ 2; the reviewer
after a writer increment at ≤ 3; the tester via approve at ≤ 3. -/
def nodeCap : Node → Int
  | .orchestrator => 2
  | .code_writer => 2
  | .code_reviewer => 3
  | .test_writer => 3

/-- Routing back for revision requires the iteration count to be below 3. -/
theorem route_revise_iterations (s : AgentState) :
    route_after_review s = "revise" → s.iterations < 3 := by
  unfold route_after_review
  intro h
  by_cases hc : s.review_json.severity.getD "none" = "critical" ∧ s.iterations < 3
  · exact hc.2
  · rw [if_neg hc] at h
    exact absurd h (by decide)

/-- Iteration-count invariant along the trace: every invocation's pre-state
has `0 ≤ iterations ≤ nodeCap node`. -/
theorem runAux_inv (env : Env) :
    ∀ (f : Nat) (n : Node) (s : AgentState),
      0 ≤ s.iterations → s.iterations ≤ nodeCap n →
      ∀ e ∈ (runAux env f n s).1,
        0 ≤ e.pre.iterations ∧ e.pre.iterations ≤ nodeCap e.node := by
  intro f
  induction f with
  | zero => intro n s _ _ e he; simp [runAux] at he
  | succ f ih =>
    intro n s h0 hcap e he
    cases hnn : nextNode n (applyStage env n s) with
    | none =>
      rw [runAux_succ_stop env f n s hnn] at he
      simp at he
      subst he
      exact ⟨h0, hcap⟩
    | some n2 =>
      rw [runAux_succ_cont env f n s n2 hnn] at he
      simp at he
      rcases he with he | he
      · subst he
        exact ⟨h0, hcap⟩
      · refine ih n2 (applyStage env n s) ?_ ?_ e he
        · rw [applyStage_iterations]
          by_cases hw : n = Node.code_writer
          · rw [if_pos hw]; omega
          · rw [if_neg hw]; exact h0
        · cases n with
          | orchestrator =>
            have hn2 : n2 = Node.code_writer := by
              simp [nextNode] at hnn
              exact hnn.symm
            subst hn2
            rw [applyStage_iterations, if_neg (by decide)]
            exact hcap
          | code_writer =>
            have hn2 : n2 = Node.code_reviewer := by
              simp [nextNode] at hnn
              exact hnn.symm
            subst hn2
            rw [applyStage_iterations, if_pos rfl]
            simp [nodeCap] at hcap ⊢
            omega
          | code_reviewer =>
            have hit : (applyStage env Node.code_reviewer s).iterations = s.iterations := by
              rw [applyStage_iterations, if_neg (by decide)]
            by_cases hr : route_after_review (applyStage env Node.code_reviewer s) = "revise"
            · have hn2 : n2 = Node.code_writer := by
                simp [nextNode, hr] at hnn
                exact hnn.symm
              subst hn2
              have hlt := route_revise_iterations _ hr
              rw [hit] at hlt ⊢
              simp [nodeCap]
              omega
            · have hn2 : n2 = Node.test_writer := by
                simp [nextNode, hr] at hnn
                exact hnn.symm
              subst hn2
              rw [hit]
              exact hcap
          | test_writer => simp [nextNode] at hnn

/-- In a trace whose consecutive entries chain and whose every step is
non-decreasing on `iterations`, the post-state iteration counts are
monotone over the whole trace. -/
theorem trace_mono (tr : List TraceEntry)
    (hchain : ∀ (i : Nat) (e e2 : TraceEntry),
      tr[i]? = some e → tr[i + 1]? = some e2 → e2.pre = e.post)
    (hstep : ∀ (i : Nat) (e : TraceEntry),
      tr[i]? = some e → e.pre.iterations ≤ e.post.iterations) :
    ∀ (j i : Nat) (ei ej : TraceEntry),
      tr[i]? = some ei → tr[j]? = some ej → i ≤ j →
      ei.post.iterations ≤ ej.post.iterations := by
  intro j
  induction j with
  | zero =>
    intro i ei ej hi hj hij
    have : i = 0 := Nat.le_zero.mp hij
    subst this
    rw [hi] at hj
    cases hj
    exact le_refl _
  | succ j ih =>
    intro i ei ej hi hj hij
    by_cases hend : i = j + 1
    · subst hend
      rw [hi] at hj
      cases hj
      exact le_refl _
    · have hij' : i ≤ j := by omega
      have hjlen : j < tr.length := by
        have hj1 : j + 1 < tr.length := by
          by_contra hc
          rw [List.getElem?_eq_none (by omega)] at hj
          cases hj
        omega
      obtain ⟨ej', hj'⟩ : ∃ x, tr[j]? = some x := by
        rw [List.getElem?_eq_getElem hjlen]
        exact ⟨_, rfl⟩
      have h1 := ih i ei ej' hi hj' hij'
      have h2 := hchain j ej' ej hj' hj
      have h3 := hstep (j + 1) ej hj
      rw [h2] at h3
      exact le_trans h1 h3

/-- C5: in every pipeline run, every reachable state satisfies
`0 ≤ iterations ≤ 4` (`maxRevisions + 1` for `maxRevisions = 3`);
`iterations` never decreases across the run and is never reset; the writer
stage increments it by exactly 1 per pass, and every other stage leaves it
unchanged. -/
theorem iterations_controlled (env : Env) (task : String) :
    (∀ (i : Nat) (e : TraceEntry), (pipelineRun env task).1[i]? = some e →
        0 ≤ e.pre.iterations ∧ e.pre.iterations ≤ 4
        ∧ 0 ≤ e.post.iterations ∧ e.post.iterations ≤ 4
        ∧ e.pre.iterations ≤ e.post.iterations
        ∧ e.post.iterations
            = (if e.node = Node.code_writer then e.pre.iterations + 1 else e.pre.iterations))
    ∧ (∀ (i j : Nat) (ei ej : TraceEntry),
        (pipelineRun env task).1[i]? = some ei →
        (pipelineRun env task).1[j]? = some ej → i ≤ j →
        ei.post.iterations ≤ ej.post.iterations) := by
  have hfact : ∀ (i : Nat) (e : TraceEntry), (pipelineRun env task).1[i]? = some e →
      0 ≤ e.pre.iterations ∧ e.pre.iterations ≤ 4
      ∧ 0 ≤ e.post.iterations ∧ e.post.iterations ≤ 4
      ∧ e.pre.iterations ≤ e.post.iterations
      ∧ e.post.iterations
          = (if e.node = Node.code_writer then e.pre.iterations + 1 else e.pre.iterations) := by
    intro i e he
    have hmem : e ∈ (pipelineRun env task).1 := List.getElem?_mem he
    have hinv := runAux_inv env 10 .orchestrator (initState task)
      (show (0 : Int) ≤ 0 from le_refl 0) (show (0 : Int) ≤ 2 by norm_num) e hmem
    have hcap : nodeCap e.node ≤ 3 := by cases e.node <;> norm_num [nodeCap]
    have hpost : e.post = applyStage env e.node e.pre :=
      runAux_entry_honest env 10 .orchestrator (initState task) e hmem
    have hit : e.post.iterations
        = (if e.node = Node.code_writer then e.pre.iterations + 1 else e.pre.iterations) := by
      rw [hpost, applyStage_iterations]
    by_cases hw : e.node = Node.code_writer
    · rw [if_pos hw] at hit
      exact ⟨hinv.1, by omega, by omega, by omega, by omega, by rw [if_pos hw]; exact hit⟩
    · rw [if_neg hw] at hit
      exact ⟨hinv.1, by omega, by omega, by omega, by omega, by rw [if_neg hw]; exact hit⟩
  refine ⟨hfact, ?_⟩
  intro i j ei ej hi hj hij
  exact trace_mono (pipelineRun env task).1
    (fun i e e2 he he2 => runAux_chain env 10 .orchestrator (initState task) i e e2 he he2)
    (fun i e he => ((((hfact i e he).2).2).2).2.1)
    j i ei ej hi hj hij

/-- C6: after every stage invocation the activity log's length equals the
number of invocations so far; each invocation appends exactly one entry
whose `role` names the invoked stage, leaving the earlier entries untouched
in order; and consecutive invocations chain states, so entries appear in
execution order. -/
theorem activity_log_tracks_invocations (env : Env) (task : String) :
    (∀ (i : Nat) (e : TraceEntry), (pipelineRun env task).1[i]? = some e →
        e.post.messages.length = i + 1
        ∧ ∃ entry : LogEntry, e.post.messages = e.pre.messages ++ [entry]
            ∧ entry.role = nodeName e.node)
    ∧ (∀ (i : Nat) (e e2 : TraceEntry),
        (pipelineRun env task).1[i]? = some e →
        (pipelineRun env task).1[i + 1]? = some e2 → e2.pre = e.post) := by
  constructor
  · intro i e he
    constructor
    · have := runAux_msgs_len env 10 .orchestrator (initState task) i e he
      simpa [initState] using this
    · have hmem : e ∈ (pipelineRun env task).1 := List.getElem?_mem he
      have hpost : e.post = applyStage env e.node e.pre :=
        runAux_entry_honest env 10 .orchestrator (initState task) e hmem
      obtain ⟨entry, hmsg, hrole⟩ := applyStage_messages env e.node e.pre
      exact ⟨entry, by rw [hpost, hmsg], hrole⟩
  · intro i e e2 he he2
    exact runAux_chain env 10 .orchestrator (initState task) i e e2 he he2

/-! ## Tool bridge (agents/mcp_client.py)

`call_mcp_tool` spawns a worker thread running `_async_call_tool`, waits on
it with `thread.join(timeout=60)`, and inspects the shared result dict.  The
worker is embedded as a value carrying the wall-clock second at which it
would complete (`none` = it never completes) and what it produces when it
does; the bridge's wait, governed by `join`, is `min(finish, 60)` seconds. -/

/-- What the worker thread leaves in the shared `result` dict when it
completes: either `result["value"]` (the `_async_call_tool` return, which
Python types as `str | None`) or `result["error"] = str(e)` from the
`except Exception` branch. -/
inductive WorkerResult where
  | completed (v : Option String)
  | raised (msg : String)
deriving DecidableEq, Repr

/-- The worker thread: when (if ever) it finishes, and what it produces. -/
structure Worker where
  finishAt : Option Nat
  result : WorkerResult
deriving DecidableEq, Repr

/-- Truth of `not thread.is_alive()` after `thread.join(timeout=deadline)`: the
worker has finished within the deadline. -/
def workerFinished (w : Worker) (deadline : Nat) : Bool :=
  match w.finishAt with
  | some t => t ≤ deadline
  | none => false

/-- How long the caller blocks in `thread.join(timeout=deadline)`: until the
worker finishes or the deadline elapses, whichever is first. -/
def joinWait (w : Worker) (deadline : Nat) : Nat :=
  match w.finishAt with
  | some t => min t deadline
  | none => deadline

/-- Embedding of `call_mcp_tool` from agents/mcp_client.py.  Returns the result string
and the worker as it is after the call — unchanged, because the code never
terminates the thread.  Mirrors the source exactly: the timeout branch when
the thread is still alive; then `if result["error"]:` (a *truthiness* test,
so an exception whose `str` is empty falls through); then
`result["value"] or ""`. -/
def call_mcp_tool (tool_name : String) (w : Worker) : String × Worker :=
  if workerFinished w 60 = false then
    ("Error: MCP tool \x27" ++ tool_name ++ "\x27 timed out after 60 seconds", w)
  else
    match w.result with
    | .raised msg =>
      if msg = "" then ("", w)
      else ("Error calling MCP tool \x27" ++ tool_name ++ "\x27: " ++ msg, w)
    | .completed v => (v.getD "", w)

/-- C3 counterexample: a worker that raises an exception whose string form
is empty (e.g. `raise RuntimeError()`) makes `result["error"]` falsy, so the
bridge returns `""` — a tool-side error that is *not* converted to a
descriptive error string naming the tool, and is indistinguishable from an
empty success. -/
theorem call_mcp_tool_empty_error_cx :
    (call_mcp_tool "execute_code" ⟨some 0, .raised ""⟩).1 = ""
    ∧ strContainsSub (call_mcp_tool "execute_code" ⟨some 0, .raised ""⟩).1 "execute_code" = false
    ∧ (call_mcp_tool "execute_code" ⟨some 0, .raised ""⟩).1
        = (call_mcp_tool "execute_code" ⟨some 0, .completed (some "")⟩).1 := by
  refine ⟨rfl, by decide, rfl⟩

/-- C3 (amended): the bridge is a total function into strings — it can
propagate no exception — and in every outcome it returns a plain string:
the fixed timeout string when the worker misses the deadline; for a
tool-side error, a descriptive error string naming the tool when the
error's string form is non-empty, and `""` when it is empty; and the
worker's text (or `""` for `None`) on success. -/
theorem call_mcp_tool_total_characterization (tool_name : String) (w : Worker) :
    ((call_mcp_tool tool_name w).2 = w)
    ∧ (workerFinished w 60 = false →
        (call_mcp_tool tool_name w).1
          = "Error: MCP tool \x27" ++ tool_name ++ "\x27 timed out after 60 seconds")
    ∧ (∀ msg : String, workerFinished w 60 = true → w.result = .raised msg →
        (call_mcp_tool tool_name w).1
          = if msg = "" then ""
            else "Error calling MCP tool \x27" ++ tool_name ++ "\x27: " ++ msg)
    ∧ (∀ v : Option String, workerFinished w 60 = true → w.result = .completed v →
        (call_mcp_tool tool_name w).1 = v.getD "") := by
  refine ⟨?_, ?_, ?_, ?_⟩
  · unfold call_mcp_tool
    by_cases hf : workerFinished w 60 = false
    · rw [if_pos hf]
    · rw [if_neg hf]
      cases w.result with
      | raised msg => by_cases hm : msg = "" <;> simp [hm]
      | completed v => rfl
  · intro hf
    unfold call_mcp_tool
    rw [if_pos hf]
  · intro msg hf hr
    unfold call_mcp_tool
    rw [if_neg (by rw [hf]; exact fun h => absurd h (by decide)), hr]
    by_cases hm : msg = "" <;> simp [hm]
  · intro v hf hr
    unfold call_mcp_tool
    rw [if_neg (by rw [hf]; exact fun h => absurd h (by decide)), hr]

/-- C4: the caller's wait on the worker is bounded by the 60-second deadline
for every worker (`join` waits `min(finish, 60)`); when the worker has not
completed at the deadline the wait is exactly the deadline, the bridge
immediately returns the descriptive timeout string naming the tool, and the
worker is not terminated — the bridge returns it unchanged, still running. -/
theorem call_mcp_tool_deadline_bounded (tool_name : String) (w : Worker) :
    (joinWait w 60 ≤ 60)
    ∧ (workerFinished w 60 = false →
        joinWait w 60 = 60
        ∧ (call_mcp_tool tool_name w).1
            = "Error: MCP tool \x27" ++ tool_name ++ "\x27 timed out after 60 seconds"
        ∧ (call_mcp_tool tool_name w).2 = w
        ∧ workerFinished ((call_mcp_tool tool_name w).2) 60 = false) := by
  constructor
  · unfold joinWait
    cases w.finishAt with
    | none => exact le_refl 60
    | some t => exact min_le_right t 60
  · intro hf
    refine ⟨?_, ?_, ?_, ?_⟩
    · unfold joinWait
      unfold workerFinished at hf
      cases ht : w.finishAt with
      | none => rfl
      | some t =>
        rw [ht] at hf
        simp at hf ⊢
        omega
    · unfold call_mcp_tool
      rw [if_pos hf]
    · unfold call_mcp_tool
      rw [if_pos hf]
    · unfold call_mcp_tool
      rw [if_pos hf]
      exact hf

/-! ## The async worker body (`_async_call_tool`) -/

/-- One element of `result.content` in the MCP client response; its `text`
attribute is `str | None` in Python. -/
structure TextContent where
  text : Option String
deriving DecidableEq, Repr

/-- The MCP `session.call_tool` response consumed by `_async_call_tool`. -/
structure ToolCallResult where
  content : List TextContent
deriving DecidableEq, Repr

/-- Embedding of `_async_call_tool` from agents/mcp_client.py, after the session dance:
`if result.content: return result.content[0].text` (which may be `None`),
`return ""` otherwise.  The connection set-up is part of the opaque call;
this embeds what the function returns into the worker's `result["value"]`. -/
def _async_call_tool (result : ToolCallResult) : Option String :=
  match result.content with
  | [] => some ""
  | c :: _ => c.text

/-- C10: for a worker that completes in time with no error, the bridge's
return value is always a string, never `None`: empty content, a `None`
first text and an empty first text all yield `""`, indistinguishable from
one another at the caller. -/
theorem call_mcp_tool_empty_success (tool_name : String) (t : Nat) (res : ToolCallResult)
    (ht : t ≤ 60)
    (hdeg : res.content = []
      ∨ ∃ (c : TextContent) (rest : List TextContent),
          res.content = c :: rest ∧ (c.text = none ∨ c.text = some "")) :
    (call_mcp_tool tool_name ⟨some t, .completed (_async_call_tool res)⟩).1 = "" := by
  have hf : workerFinished ⟨some t, WorkerResult.completed (_async_call_tool res)⟩ 60 = true := by
    unfold workerFinished
    simpa using ht
  have hmain := (call_mcp_tool_total_characterization tool_name
    ⟨some t, .completed (_async_call_tool res)⟩).2.2.2 (_async_call_tool res) hf rfl
  rw [hmain]
  rcases hdeg with h | ⟨c, rest, hc, htext⟩
  · simp [_async_call_tool, h]
  · rcases htext with h | h <;> simp [_async_call_tool, hc, h]

/-- Witness for `call_mcp_tool_empty_success`: the concrete degenerate
inputs — empty content, `None` text, empty text — all at completion time
0. -/
theorem call_mcp_tool_empty_success_witness :
    (0 ≤ 60 ∧ (call_mcp_tool "query_docs" ⟨some 0, .completed (_async_call_tool ⟨[]⟩)⟩).1 = "")
    ∧ (call_mcp_tool "query_docs" ⟨some 0, .completed (_async_call_tool ⟨[⟨none⟩]⟩)⟩).1 = ""
    ∧ (call_mcp_tool "query_docs" ⟨some 0, .completed (_async_call_tool ⟨[⟨some ""⟩]⟩)⟩).1 = "" :=
  ⟨⟨by decide, call_mcp_tool_empty_success "query_docs" 0 ⟨[]⟩ (by decide) (Or.inl rfl)⟩,
   call_mcp_tool_empty_success "query_docs" 0 ⟨[⟨none⟩]⟩ (by decide)
     (Or.inr ⟨⟨none⟩, [], rfl, Or.inl rfl⟩),
   call_mcp_tool_empty_success "query_docs" 0 ⟨[⟨some ""⟩]⟩ (by decide)
     (Or.inr ⟨⟨some ""⟩, [], rfl, Or.inr rfl⟩)⟩

/-! ## The HTTP entry point (api/main.py) -/

/-- Embedding of `RunRequest` from api/main.py. -/
structure RunRequest where
  task : String
deriving DecidableEq, Repr

/-- Embedding of `RunResponse` from api/main.py. -/
structure RunResponse where
  code : String
  review : String
  test_results : String
  iterations : Int
  messages : List LogEntry
deriving DecidableEq, Repr

/-- An HTTP error response raised via `HTTPException(status_code, detail)`. -/
structure HTTPError where
  status : Nat
  detail : String
deriving DecidableEq, Repr

/-- Modelled from the spec: when a stage's opaque operation fails entirely,
the engine (the langgraph library, not part of this repository's sources)
aborts the run and raises an error carrying the failing stage's name and the
underlying cause; no final state is produced. -/
structure StageError where
  stage : String
  cause : String
deriving DecidableEq, Repr

/-- Modelled from the spec: the string form of the engine's stage failure,
which reports "stage name + cause". -/
def strOfStageError (e : StageError) : String :=
  "Stage \x27" ++ e.stage ++ "\x27 failed: " ++ e.cause

/-- What `graph.invoke` does inside the endpoint's `try`: either it returns
the complete final state, or (modelled from the spec, since the engine loop
is library code) it raises the failing stage's error. -/
inductive InvokeOutcome where
  | ok (s : AgentState)
  | fail (e : StageError)
deriving DecidableEq, Repr

/-- Embedding of `run_pipeline` from api/main.py: empty (whitespace-only) tasks are
rejected with a 400 before the engine is entered; then the graph is invoked
and any exception `e` is converted to
`HTTPException(500, f"Pipeline error: {str(e)}")`, while a successful run is
projected onto the response model. -/
def run_pipeline (request : RunRequest) (outcome : InvokeOutcome) :
    Except HTTPError RunResponse :=
  if pyStrip request.task = "" then
    .error ⟨400, "Task cannot be empty"⟩
  else
    match outcome with
    | .ok s => .ok ⟨s.code, s.review, s.test_results, s.iterations, s.messages⟩
    | .fail e => .error ⟨500, "Pipeline error: " ++ strOfStageError e⟩

/-- C7: when any stage fails, the endpoint's caller receives a single
terminal 500 error whose detail carries the failing stage's name and the
underlying cause, and no `RunResponse` — partial or otherwise — is returned;
when no stage fails, a complete response is returned. -/
theorem run_pipeline_failure_terminal (request : RunRequest) (e : StageError)
    (h : ¬ pyStrip request.task = "") :
    run_pipeline request (.fail e)
      = .error ⟨500, "Pipeline error: Stage \x27" ++ e.stage ++ ("\x27 failed: " ++ e.cause)⟩
    ∧ (∀ r : RunResponse, ¬ run_pipeline request (.fail e) = .ok r)
    ∧ (∀ s : AgentState, run_pipeline request (.ok s)
        = .ok ⟨s.code, s.review, s.test_results, s.iterations, s.messages⟩) := by
  have hdet : "Pipeline error: " ++ strOfStageError e
      = "Pipeline error: Stage \x27" ++ e.stage ++ ("\x27 failed: " ++ e.cause) := by
    unfold strOfStageError
    simp [String.append_assoc]
    rw [← String.append_assoc "Pipeline error: " "Stage \x27"]
    congr 1
  refine ⟨?_, ?_, ?_⟩
  · unfold run_pipeline
    rw [if_neg h, ← hdet]
  · intro r
    unfold run_pipeline
    rw [if_neg h]
    intro hc
    cases hc
  · intro s
    unfold run_pipeline
    rw [if_neg h]

/-- Witness for `run_pipeline_failure_terminal` at a concrete request and a
concrete writer-stage failure. -/
theorem run_pipeline_failure_terminal_witness :
    ¬ pyStrip "add two numbers" = ""
    ∧ run_pipeline ⟨"add two numbers"⟩ (.fail ⟨"code_writer", "api connection refused"⟩)
        = .error ⟨500,
            "Pipeline error: Stage \x27code_writer\x27 failed: api connection refused"⟩ :=
  ⟨by decide,
   by
    have hm := run_pipeline_failure_terminal ⟨"add two numbers"⟩
      ⟨"code_writer", "api connection refused"⟩ (by decide)
    rw [hm.1]
    rfl⟩

/-! ## Tool server dispatcher (mcp_server/server.py, `call_tool`)

The dispatcher's branch structure and argument lookups are embedded
faithfully; the file-system / subprocess / network effect each branch then
performs is abstracted into a `ServerAction` value describing the
implementation invoked with its arguments.  `arguments[k]` on a missing key
raises `KeyError` — these lookups happen *before* each branch's `try`, so
the error propagates out of `call_tool` — embedded as `Except.error`. -/

/-- The implementation a `call_tool` branch hands control to, or the
unknown-tool reply text. -/
inductive ServerAction where
  | readFile (path : String)
  | writeFile (path content : String)
  | executeCode (code : String)
  | searchGithub (query : String)
  | listDirectory (path : String)
  | unknownTool (reply : String)
deriving DecidableEq, Repr

/-- Embedding of `arguments[key]`: the Python subscript lookup, raising `KeyError` when the
key is absent. -/
def dictGetOrKeyError (arguments : List (String × String)) (key : String) :
    Except String String :=
  match arguments.lookup key with
  | some v => Except.ok v
  | none => Except.error ("KeyError: \x27" ++ key ++ "\x27")

/-- Embedding of `call_tool` from mcp_server/server.py: dispatch on the tool name.
Only `read_file`, `write_file`, `execute_code`, `search_github` and
`list_directory` have branches; `write_file` reads `arguments["path"]` and
`arguments["content"]` (never a `filename` key), `search_github` reads
`arguments["query"]`, `list_directory` uses `arguments.get("path", ".")`,
and any other name falls through to the unknown-tool reply. -/
def call_tool (name : String) (arguments : List (String × String)) :
    Except String ServerAction :=
  if name = "read_file" then
    (dictGetOrKeyError arguments "path").bind (fun path => .ok (.readFile path))
  else if name = "write_file" then
    (dictGetOrKeyError arguments "path").bind (fun path =>
      (dictGetOrKeyError arguments "content").bind (fun content =>
        .ok (.writeFile path content)))
  else if name = "execute_code" then
    (dictGetOrKeyError arguments "code").bind (fun code => .ok (.executeCode code))
  else if name = "search_github" then
    (dictGetOrKeyError arguments "query").bind (fun query => .ok (.searchGithub query))
  else if name = "list_directory" then
    .ok (.listDirectory (((arguments.lookup "path")).getD "."))
  else
    .ok (.unknownTool ("Error: Unknown tool \x27" ++ name
      ++ "\x27. Available tools: read_file, write_file, execute_code, search_github, list_directory"))

/-- C8: evaluating the dispatcher at the two wire-contract calls the claim
names.  `call_tool("query_docs", {"query": ..., "n_results": ...})` — the
exact call agents/code_writer.py line 25 makes — is rejected as an unknown
tool rather than dispatched to the `query_docs` implementation (which lives
in rag/retriever.py but is never registered); and
`call_tool("write_file", {"filename": "generated_code.py", "content": ...})`
— the exact call agents/code_writer.py lines 84–87 makes — raises
`KeyError: 'path'` instead of accepting the `filename` key. -/
theorem call_tool_contract_failures :
    call_tool "query_docs" [("query", "sorting"), ("n_results", "3")]
      = .ok (.unknownTool ("Error: Unknown tool \x27query_docs\x27. "
          ++ "Available tools: read_file, write_file, execute_code, search_github, list_directory"))
    ∧ call_tool "write_file" [("filename", "generated_code.py"), ("content", "print(1)")]
      = .error "KeyError: \x27path\x27"
    ∧ (∀ a : ServerAction,
        ¬ call_tool "write_file" [("filename", "generated_code.py"), ("content", "print(1)")]
          = .ok a) := by
  refine ⟨rfl, rfl, ?_⟩
  intro a hc
  rw [show call_tool "write_file" [("filename", "generated_code.py"), ("content", "print(1)")]
      = (.error "KeyError: \x27path\x27" : Except String ServerAction) from rfl] at hc
  cases hc

/-! ## The reviewer's verdict invariant (C9) -/

/-- C9 counterexample: a reachable reviewer-produced state with an *empty*
issues list but severity `"critical"`.  `_parse_review_json` returns a
successfully decoded JSON dict unvalidated, so a response decoding to
`{"issues": [], "severity": "critical", "summary": "ok"}` (the verdict
`cEnv` supplies on every pass) is stored as-is; the run's final state keeps
it. -/
theorem reviewer_empty_issues_critical_cx :
    ((pipelineRun cEnv "task").2.map
        (fun s => (s.review_json.issues, s.review_json.severity)))
      = some (some ([] : List Issue), some "critical") := by
  decide

/-- C9 (amended): the implication "empty issues list → severity `none`"
holds on the fallback path — when the reviewer response yields no decodable
JSON dict, the stored verdict is exactly
`{"issues": [], "severity": "none", ...}` — while a successfully decoded
dict is stored into the state unvalidated, whatever its severity and issues
are. -/
theorem reviewer_fallback_empty_issues_none (text : String) (s : AgentState) :
    ((merge s (code_reviewer_agent none text s)).review_json.issues = some []
      ∧ (merge s (code_reviewer_agent none text s)).review_json.severity = some "none")
    ∧ (∀ d : ReviewJson,
        (merge s (code_reviewer_agent (some d) text s)).review_json = d) := by
  exact ⟨⟨rfl, rfl⟩, fun d => rfl⟩
